import Mathlib

/-!
Verification of the `async-intuition` core: a shallow embedding of the
repository's poll-driven primitives (`Sleep`, `a_then_b`, `until_equals`)
together with proofs about their poll state machines, resource release
behaviour and the equivalence of the two manual sequencer realizations.

Modelling conventions:
* A Rust future is embedded as a state value plus an explicit poll function
  `state → state × Poll out × List E`; the event list records the observable
  effects of that poll call (operand polls, completion records, releases).
* `Pin::set` (overwriting the pinned state) runs the drop glue of the old
  value, including the `#[pinned_drop]` body generated by `pin_project`;
  the embedding makes those releases explicit via `List E` events computed
  by the same function that models discarding the combinator.
* Panics (`unreachable`, resumed-after-completion) are embedded as
  `Except.error`; `ManuallyDrop<B>` is embedded as a plain `B` (the wrapper
  only suppresses drop glue), `MaybeUninit<T>` as `Option T`.
-/

/-- `core::task::Poll`. -/
inductive Poll (α : Type u) where
  | Pending : Poll α
  | Ready (v : α) : Poll α
deriving DecidableEq

namespace AThenB

/-- State of `manual::DoAThenB`.  `DoingA` stores the pinned first operand
and the second operand inside a `ManuallyDrop` slot (embedded as a plain
`B`, since `ManuallyDrop` only suppresses automatic drop glue). -/
inductive DoAThenB (A B : Type u) where
  | DoingA (a : A) (b : B) : DoAThenB A B
  | DoingB (b : B) : DoAThenB A B
  | Done : DoAThenB A B
deriving DecidableEq

/-- `manual::DoAThenB::new`. -/
def DoAThenB.new (a : A) (b : B) : DoAThenB A B :=
  .DoingA a b

/-- Releases performed when a `manual::DoAThenB` value is dropped in a given
state: the `#[pinned_drop]` body (`ManuallyDrop::drop(b)` in `DoingA`,
nothing otherwise) followed by the automatic field drop glue (`a` in
`DoingA`, `b` in `DoingB`; the `ManuallyDrop` slot has no glue). -/
def manualDropEvs (relA relB : E) : DoAThenB A B → List E
  | .DoingA _ _ => [relB, relA]
  | .DoingB _ => [relB]
  | .Done => []

/-- `manual::DoAThenB::poll`.  The source loops; the loop body is entered at
most twice (the `DoingA` arm transitions to `DoingB` and continues, the
`DoingB` and `Done` arms leave the loop), so it is unrolled here.  Each
`self.set(new)` drops the old state in place, which emits
`manualDropEvs old` (the `pinned_drop` body plus field glue of the value
being overwritten).  Polling in `Done` is the
"resumed after completion" panic, embedded as `Except.error`. -/
def manualPoll (pollA : A → A × Poll Unit × List E)
    (pollB : B → B × Poll Unit × List E) (relA relB : E) :
    DoAThenB A B → Except String (DoAThenB A B × Poll Unit × List E)
  | .DoingA a b =>
    match pollA a with
    | (a1, .Pending, ev) => .ok (.DoingA a1 b, .Pending, ev)
    | (a1, .Ready _, ev) =>
      -- `ManuallyDrop::take(b)`, then `self.set(DoingB { b })`: the old
      -- `DoingA` state is dropped in place, then the loop re-enters in
      -- the `DoingB` arm within the same call.
      match pollB b with
      | (b1, .Pending, ev2) =>
        .ok (.DoingB b1, .Pending,
          ev ++ manualDropEvs relA relB (.DoingA a1 b) ++ ev2)
      | (b1, .Ready _, ev2) =>
        -- `self.set(Done)` drops the old `DoingB` state in place.
        .ok (.Done, .Ready (),
          ev ++ manualDropEvs relA relB (.DoingA a1 b) ++
            (ev2 ++ manualDropEvs relA relB (.DoingB b1 : DoAThenB A B)))
  | .DoingB b =>
    match pollB b with
    | (b1, .Pending, ev) => .ok (.DoingB b1, .Pending, ev)
    | (b1, .Ready _, ev) =>
      .ok (.Done, .Ready (),
        ev ++ manualDropEvs relA relB (.DoingB b1 : DoAThenB A B))
  | .Done => .error "resumed after completion"

/-- State of `manual_opt::DoAThenB`.  The `MaybeUninit` slots are embedded
as `Option` (`none` = uninitialized). -/
inductive DoAThenBOpt (A B : Type u) where
  | DoingA (a : A) (b : Option B) : DoAThenBOpt A B
  | DoingB (a : Option A) (b : B) : DoAThenBOpt A B
  | Done : DoAThenBOpt A B
deriving DecidableEq

/-- `manual_opt::DoAThenB::new`. -/
def DoAThenBOpt.new (a : A) (b : B) : DoAThenBOpt A B :=
  .DoingA a (some b)

/-- Releases performed when a `manual_opt::DoAThenB` value is dropped in a
given state: the `#[pinned_drop]` body (`b.assume_init_drop()` in `DoingA`,
nothing otherwise) plus the field glue (`a` in `DoingA`, `b` in `DoingB`;
`MaybeUninit` has no glue). -/
def optDropEvs (relA relB : E) : DoAThenBOpt A B → List E
  | .DoingA _ _ => [relB, relA]
  | .DoingB _ _ => [relB]
  | .Done => []

/-- `manual_opt::DoAThenB::doing_b`: polls the second operand; on Ready,
`self.set(Done)` drops the old `DoingB` state in place. -/
def doing_b (pollB : B → B × Poll Unit × List E) (relA relB : E)
    (aSlot : Option A) (b : B) : DoAThenBOpt A B × Poll Unit × List E :=
  match pollB b with
  | (b1, .Pending, ev) => (.DoingB aSlot b1, .Pending, ev)
  | (b1, .Ready _, ev) =>
    (.Done, .Ready (), ev ++ optDropEvs relA relB (.DoingB aSlot b1))

/-- `manual_opt::DoAThenB::doing_a`: polls the first operand; on Ready it
reads the second operand out of the `MaybeUninit` slot
(`assume_init_read`, undefined behaviour if the slot is uninitialized,
embedded as `Except.error`), performs `self.set(DoingB { a, b })` — which
drops the old `DoingA` state in place — and tail-calls `doing_b`. -/
def doing_a (pollA : A → A × Poll Unit × List E)
    (pollB : B → B × Poll Unit × List E) (relA relB : E)
    (a : A) (bSlot : Option B) :
    Except String (DoAThenBOpt A B × Poll Unit × List E) :=
  match pollA a with
  | (a1, .Pending, ev) => .ok (.DoingA a1 bSlot, .Pending, ev)
  | (a1, .Ready _, ev) =>
    match bSlot with
    | none => .error "assume_init_read of uninitialized slot"
    | some b =>
      match doing_b pollB relA relB none b with
      | (st, r, ev2) =>
        .ok (st, r, ev ++ optDropEvs relA relB (.DoingA a1 bSlot) ++ ev2)

/-- `manual_opt::DoAThenB::poll`: dispatches on the current state. -/
def optPoll (pollA : A → A × Poll Unit × List E)
    (pollB : B → B × Poll Unit × List E) (relA relB : E) :
    DoAThenBOpt A B → Except String (DoAThenBOpt A B × Poll Unit × List E)
  | .DoingA a bSlot => doing_a pollA pollB relA relB a bSlot
  | .DoingB aSlot b => .ok (doing_b pollB relA relB aSlot b)
  | .Done => .error "resumed after completion"

/-- Map from `manual` states to the corresponding `manual_opt` states: the
`ManuallyDrop` slot is an initialized `MaybeUninit`, and the first-operand
slot of `DoingB` is uninitialized. -/
def toOpt : DoAThenB A B → DoAThenBOpt A B
  | .DoingA a b => .DoingA a (some b)
  | .DoingB b => .DoingB none b
  | .Done => .Done

end AThenB

/-- Drive a stepping function `n` times from a state, collecting the poll
results and the concatenated event trace; stops at the first error. -/
def runF (step : St → Except String (St × Poll Unit × List E)) :
    Nat → St → Except String (St × List (Poll Unit) × List E)
  | 0, s => .ok (s, [], [])
  | n + 1, s =>
    match step s with
    | .error e => .error e
    | .ok (s1, r, ev) =>
      match runF step n s1 with
      | .error e => .error e
      | .ok (s2, rs, evs) => .ok (s2, r :: rs, ev ++ evs)

/-- State of `manual::UntilEquals` (the Repeater): the target value, the
captured state of the factory closure (`next` in the source; a factory
that yields successive values keeps its counter here), and the optional
current sub-operation slot. `u32` values are embedded as `Nat`. -/
structure UntilEquals (NumFut Φ : Type u) where
  check : Nat
  next : Φ
  num_fut : Option NumFut
deriving DecidableEq

/-- `manual::UntilEquals::poll`.  Invoking the factory is embedded as
applying `nextFn` to the stored closure state and emitting `factEv`.
If the slot is empty it is filled from the factory and then read back with
`unwrap_unchecked`; the `none` branch of that read models the unsafe
unreachable path.  On Ready the slot is cleared (`num_fut.set(None)`), and
the result is Ready exactly when the produced value equals the target. -/
def UntilEquals.poll (nextFn : Φ → Φ × NumFut)
    (pollNum : NumFut → NumFut × Poll Nat × List E) (factEv : E)
    (s : UntilEquals NumFut Φ) :
    Except String (UntilEquals NumFut Φ × Poll Unit × List E) :=
  let s1 : UntilEquals NumFut Φ :=
    match s.num_fut with
    | some _ => s
    | none =>
      match nextFn s.next with
      | (p, nf) => { s with next := p, num_fut := some nf }
  let evF : List E := match s.num_fut with | some _ => [] | none => [factEv]
  match s1.num_fut with
  | none => .error "unwrap_unchecked on a None slot"
  | some fut =>
    match pollNum fut with
    | (f1, .Pending, ev) => .ok ({ s1 with num_fut := some f1 }, .Pending, evF ++ ev)
    | (_, .Ready num, ev) =>
      if num = s1.check then .ok ({ s1 with num_fut := none }, .Ready (), evF ++ ev)
      else .ok ({ s1 with num_fut := none }, .Pending, evF ++ ev)

/-- Resumption state of the desugared `auto::until_equals` loop body. -/
inductive AutoState (NumFut Φ : Type u) where
  | running (p : Φ) (fut : NumFut) : AutoState NumFut Φ
  | finished : AutoState NumFut Φ
deriving DecidableEq

/-- The loop of `auto::until_equals`, as the compiler desugars it: poll the
current sub-operation; Pending suspends (propagating Pending), Ready with
the target value returns, and Ready with any other value calls the factory
and continues the loop — polling the fresh sub-operation within the same
call.  `fuel` bounds the in-call iterations; `none` means the loop was
still running when the fuel ran out. -/
def autoLoop (nextFn : Φ → Φ × NumFut)
    (pollNum : NumFut → NumFut × Poll Nat × List E) (factEv : E)
    (check : Nat) :
    Nat → Φ → NumFut → Option (AutoState NumFut Φ × Poll Unit × List E)
  | 0, _, _ => none
  | fuel + 1, p, fut =>
    match pollNum fut with
    | (f1, .Pending, ev) => some (.running p f1, .Pending, ev)
    | (_, .Ready num, ev) =>
      if num = check then some (.finished, .Ready (), ev)
      else
        match nextFn p with
        | (p1, nf) =>
          match autoLoop nextFn pollNum factEv check fuel p1 nf with
          | none => none
          | some (st, r, ev2) => some (st, r, ev ++ factEv :: ev2)

/-- The `Shared` cell of `Sleep`: the stored waker and the done flag,
guarded by one mutex in the source (poll steps and the worker's completion
step are therefore atomic with respect to each other). -/
structure Shared (W : Type u) where
  waker : W
  done : Bool
deriving DecidableEq

/-- The `Sleep` future: the duration and the lazily allocated handle to the
shared cell.  Durations are opaque here (embedded as `Nat`). -/
structure Sleep (W : Type u) where
  duration : Nat
  handle : Option (Shared W)
deriving DecidableEq

/-- Observable effects of the timer: spawning the background worker and
invoking a waker. -/
inductive SleepEv (W : Type u) where
  | spawned (duration : Nat) : SleepEv W
  | woke (w : W) : SleepEv W
deriving DecidableEq

/-- The `Sleep` value built by `sleep(duration)`: no handle, hence no
background work, exists until the first poll. -/
def sleepFut (W : Type u) (duration : Nat) : Sleep W :=
  { duration := duration, handle := none }

/-- `Sleep::poll`: on first poll (`handle.get_or_insert_with`) clone the
caller's waker, allocate the shared cell and spawn the worker; then, under
the lock, return Ready if `done` is set, else refresh the stored waker to
the caller's current one and return Pending. -/
def Sleep.poll (cx : W) (s : Sleep W) : Sleep W × Poll Unit × List (SleepEv W) :=
  let t : Sleep W × Shared W × List (SleepEv W) :=
    match s.handle with
    | some sh => (s, sh, [])
    | none =>
      let sh : Shared W := { waker := cx, done := false }
      ({ s with handle := some sh }, sh, [.spawned s.duration])
  match t with
  | (s0, sh, evs) =>
    if sh.done then (s0, .Ready (), evs)
    else ({ s0 with handle := some { sh with waker := cx } }, .Pending, evs)

/-- The body the background worker runs after waiting out the duration:
under the cell's lock, set `done` and wake the stored waker. -/
def workerBody (sh : Shared W) : Shared W × List (SleepEv W) :=
  ({ sh with done := true }, [.woke sh.waker])

/-- The worker's completion step acting on the whole timer state (it owns a
clone of the `Arc`, so it updates the same cell the poller reads). -/
def workerFire (s : Sleep W) : Sleep W × List (SleepEv W) :=
  match s.handle with
  | some sh => ({ s with handle := some (workerBody sh).1 }, (workerBody sh).2)
  | none => (s, [])

/-- Events for instrumented sequencer operands: polls, completion records
("records its tag before completing") and resource releases (drops). -/
inductive Ev where
  | polled (tag : String) : Ev
  | recorded (tag : String) : Ev
  | released (tag : String) : Ev
deriving DecidableEq, BEq

/-- An instrumented operand: a countdown future that returns Pending
`c` times before completing, emitting a poll event on every poll and a
completion record when it returns Ready. -/
def cPoll (tag : String) : Nat → Nat × Poll Unit × List Ev
  | 0 => (0, .Ready (), [.polled tag, .recorded tag])
  | c + 1 => (c, .Pending, [.polled tag])

/-- The `manual` sequencer over two instrumented countdown operands. -/
def seqStep : AThenB.DoAThenB Nat Nat →
    Except String (AThenB.DoAThenB Nat Nat × Poll Unit × List Ev) :=
  AThenB.manualPoll (cPoll "A") (cPoll "B") (.released "A") (.released "B")

/-- Drive the instrumented `manual` sequencer `n` polls. -/
def seqRun (n : Nat) (s : AThenB.DoAThenB Nat Nat) :
    Except String (AThenB.DoAThenB Nat Nat × List (Poll Unit) × List Ev) :=
  runF seqStep n s

/-- The freshly constructed instrumented sequencer: first operand pending
`nA` polls, second operand pending `nB` polls. -/
def seqInit (nA nB : Nat) : AThenB.DoAThenB Nat Nat :=
  AThenB.DoAThenB.new nA nB

/-- Teardown releases of the instrumented `manual` sequencer. -/
def seqDropEvs : AThenB.DoAThenB Nat Nat → List Ev :=
  AThenB.manualDropEvs (.released "A") (.released "B")

/-- Teardown releases of the instrumented `manual_opt` sequencer. -/
def seqOptDropEvs : AThenB.DoAThenBOpt Nat Nat → List Ev :=
  AThenB.optDropEvs (.released "A") (.released "B")

/-- The event trace of driving the instrumented sequencer to completion
(`nA + nB + 1` polls), written out explicitly. -/
def seqFullTrace (nA nB : Nat) : List Ev :=
  List.replicate nA (.polled "A") ++
    [.polled "A", .recorded "A", .released "B", .released "A", .polled "B"] ++
    (match nB with
     | 0 => [.recorded "B", .released "B"]
     | m + 1 => List.replicate m (.polled "B") ++
         [.polled "B", .recorded "B", .released "B"])

/-- The poll results of driving the instrumented sequencer to completion. -/
def seqResults (nA nB : Nat) : List (Poll Unit) :=
  List.replicate (nA + nB) .Pending ++ [.Ready ()]

/-- The completion records contained in a trace, in order. -/
def recLog (T : List Ev) : List String :=
  T.filterMap fun e => match e with | .recorded t => some t | _ => none

/-- True of every event except the completion record of operand "A". -/
def notRecordedA : Ev → Bool
  | .recorded t => t != "A"
  | _ => true

/-- Whether a sequencer state is still in its first phase. -/
def isDoingA : AThenB.DoAThenB Nat Nat → Bool
  | .DoingA _ _ => true
  | _ => false

/-- Events of the instrumented Repeater: factory invocations and, for each
produced sub-operation (identified by the value it will produce), polls and
completions. -/
inductive UEv where
  | factory : UEv
  | polled (id : Nat) : UEv
  | readied (id : Nat) : UEv
deriving DecidableEq, BEq

/-- Whether some sub-operation is polled after it has completed. -/
def hasPolledAfterReady : List UEv → Bool
  | [] => false
  | .readied k :: rest =>
    rest.contains (UEv.polled k) || hasPolledAfterReady rest
  | _ :: rest => hasPolledAfterReady rest

/-- The factory of §8's Repeater scenario: yields 1, 2, 3, 4, 5, … on
successive invocations (its closure state is the count of invocations so
far). -/
def ueNext : Nat → Nat × Nat := fun n => (n + 1, n + 1)

/-- Instrumented sub-operations for the Repeater scenario: each completes
immediately with its value, logging the poll and the completion. -/
def uePollNum : Nat → Nat × Poll Nat × List UEv :=
  fun v => (v, .Ready v, [.polled v, .readied v])

/-- The instrumented Repeater step with target 4 and the 1,2,3,4,5 factory. -/
def ueStep : UntilEquals Nat Nat →
    Except String (UntilEquals Nat Nat × Poll Unit × List UEv) :=
  UntilEquals.poll ueNext uePollNum .factory

/-- Drive the instrumented Repeater from its initial state. -/
def ueRun (n : Nat) :
    Except String (UntilEquals Nat Nat × List (Poll Unit) × List UEv) :=
  runF ueStep n { check := 4, next := 0, num_fut := none }

theorem runF_add (step : St → Except String (St × Poll Unit × List E))
    (n m : Nat) (s : St) :
    runF step (n + m) s =
      match runF step n s with
      | .error e => .error e
      | .ok (s1, rs, evs) =>
        match runF step m s1 with
        | .error e => .error e
        | .ok (s2, rs2, evs2) => .ok (s2, rs ++ rs2, evs ++ evs2) := by
  induction n generalizing s with
  | zero => simp only [Nat.zero_add, runF]; cases runF step m s <;> rfl
  | succ k ih =>
    have h1 : k + 1 + m = (k + m) + 1 := by omega
    rw [h1]
    cases h : step s with
    | error e => simp [runF, h]
    | ok t =>
      obtain ⟨s1, r, ev⟩ := t
      simp only [runF, h]
      rw [ih s1]
      cases h2 : runF step k s1 with
      | error e => rfl
      | ok t2 =>
        obtain ⟨s2, rs, evs⟩ := t2
        cases h3 : runF step m s2 with
        | error e => simp [h3]
        | ok t3 => obtain ⟨s3, rs3, evs3⟩ := t3; simp [h3]

namespace AThenB

theorem optPoll_toOpt (pollA : A → A × Poll Unit × List E)
    (pollB : B → B × Poll Unit × List E) (relA relB : E) (s : DoAThenB A B) :
    optPoll pollA pollB relA relB (toOpt s) =
      Except.map (fun t => (toOpt t.1, t.2.1, t.2.2))
        (manualPoll pollA pollB relA relB s) := by
  cases s with
  | DoingA a b =>
    rcases h : pollA a with ⟨a1, r, ev⟩
    cases r with
    | Pending =>
      simp [toOpt, optPoll, doing_a, manualPoll, h, Except.map]
    | Ready v =>
      rcases h2 : pollB b with ⟨b1, r2, ev2⟩
      cases r2 with
      | Pending =>
        simp [toOpt, optPoll, doing_a, doing_b, manualPoll, h, h2,
          optDropEvs, manualDropEvs, Except.map]
      | Ready w =>
        simp [toOpt, optPoll, doing_a, doing_b, manualPoll, h, h2,
          optDropEvs, manualDropEvs, Except.map]
  | DoingB b =>
    rcases h : pollB b with ⟨b1, r, ev⟩
    cases r with
    | Pending =>
      simp [toOpt, optPoll, doing_b, manualPoll, h, optDropEvs,
        manualDropEvs, Except.map]
    | Ready v =>
      simp [toOpt, optPoll, doing_b, manualPoll, h, optDropEvs,
        manualDropEvs, Except.map]
  | Done => rfl

theorem runF_optPoll_toOpt (pollA : A → A × Poll Unit × List E)
    (pollB : B → B × Poll Unit × List E) (relA relB : E) (n : Nat)
    (s : DoAThenB A B) :
    runF (optPoll pollA pollB relA relB) n (toOpt s) =
      Except.map (fun t => (toOpt t.1, t.2.1, t.2.2))
        (runF (manualPoll pollA pollB relA relB) n s) := by
  induction n generalizing s with
  | zero => simp [runF, Except.map]
  | succ k ih =>
    simp only [runF, optPoll_toOpt pollA pollB relA relB s]
    cases h : manualPoll pollA pollB relA relB s with
    | error e => simp [Except.map]
    | ok t =>
      obtain ⟨s1, r, ev⟩ := t
      simp only [Except.map, ih s1]
      cases h2 : runF (manualPoll pollA pollB relA relB) k s1 with
      | error e => simp [Except.map]
      | ok t2 => obtain ⟨s2, rs, evs⟩ := t2; simp [Except.map]

end AThenB

theorem seqRun_pendA : ∀ (k c b : Nat),
    seqRun k (.DoingA (k + c) b) =
      .ok (.DoingA c b, List.replicate k .Pending,
        List.replicate k (.polled "A")) := by
  intro k
  induction k with
  | zero =>
    intro c b
    simp [seqRun, runF, Nat.zero_add]
  | succ k ih =>
    intro c b
    have h1 : k + 1 + c = (k + c) + 1 := by omega
    rw [h1]
    have h2 := ih c b
    simp only [seqRun, seqStep] at h2
    simp only [seqRun, runF, seqStep, AThenB.manualPoll, cPoll,
      List.replicate_succ]
    rw [h2]
    simp

theorem seqRun_pendB : ∀ (k c : Nat),
    seqRun k (.DoingB (k + c)) =
      .ok (.DoingB c, List.replicate k .Pending,
        List.replicate k (.polled "B")) := by
  intro k
  induction k with
  | zero =>
    intro c
    simp [seqRun, runF, Nat.zero_add]
  | succ k ih =>
    intro c
    have h1 : k + 1 + c = (k + c) + 1 := by omega
    rw [h1]
    have h2 := ih c
    simp only [seqRun, seqStep] at h2
    simp only [seqRun, runF, seqStep, AThenB.manualPoll, cPoll,
      List.replicate_succ]
    rw [h2]
    simp

theorem seqStep_transition (m : Nat) :
    seqStep (.DoingA 0 (m + 1)) =
      .ok (.DoingB m, .Pending,
        [.polled "A", .recorded "A", .released "B", .released "A",
         .polled "B"]) := rfl

theorem seqStep_transition_zero :
    seqStep (.DoingA 0 0) =
      .ok (.Done, .Ready (),
        [.polled "A", .recorded "A", .released "B", .released "A",
         .polled "B", .recorded "B", .released "B"]) := rfl

theorem seqStep_finish :
    seqStep (.DoingB 0) =
      .ok (.Done, .Ready (), [.polled "B", .recorded "B", .released "B"]) :=
  rfl

theorem runF_ok_add (step : St → Except String (St × Poll Unit × List E))
    {n m : Nat} {s s1 s2 : St} {rs rs2 : List (Poll Unit)}
    {evs evs2 : List E}
    (h1 : runF step n s = .ok (s1, rs, evs))
    (h2 : runF step m s1 = .ok (s2, rs2, evs2)) :
    runF step (n + m) s = .ok (s2, rs ++ rs2, evs ++ evs2) := by
  rw [runF_add step n m s, h1]
  simp [h2]

theorem seqRun_complete (nA nB : Nat) :
    seqRun (nA + nB + 1) (seqInit nA nB) =
      .ok (.Done, seqResults nA nB, seqFullTrace nA nB) := by
  have hA : runF seqStep nA (seqInit nA nB) =
      .ok (.DoingA 0 nB, List.replicate nA .Pending,
        List.replicate nA (.polled "A")) := by
    have := seqRun_pendA nA 0 nB
    simpa [seqRun, seqInit, AThenB.DoAThenB.new] using this
  cases nB with
  | zero =>
    have hstep0 : runF seqStep 1 (AThenB.DoAThenB.DoingA 0 0) =
        .ok (.Done, [.Ready ()],
          [.polled "A", .recorded "A", .released "B", .released "A",
           .polled "B", .recorded "B", .released "B"]) := by
      simp [runF, seqStep_transition_zero]
    have hall := runF_ok_add seqStep hA hstep0
    have h1 : nA + 0 + 1 = nA + 1 := rfl
    simp only [seqRun, h1]
    rw [hall]
    simp [seqResults, seqFullTrace, List.replicate_succ]
  | succ m =>
    have t1 : runF seqStep 1 (AThenB.DoAThenB.DoingA 0 (m + 1)) =
        .ok (.DoingB m, [.Pending],
          [.polled "A", .recorded "A", .released "B", .released "A",
           .polled "B"]) := by
      simp [runF, seqStep_transition m]
    have t2 : runF seqStep m (AThenB.DoAThenB.DoingB m) =
        .ok (.DoingB 0, List.replicate m .Pending,
          List.replicate m (.polled "B")) := by
      have := seqRun_pendB m 0
      simpa [seqRun] using this
    have t3 : runF seqStep 1 (AThenB.DoAThenB.DoingB 0) =
        .ok (.Done, [.Ready ()],
          [.polled "B", .recorded "B", .released "B"]) := by
      simp [runF, seqStep_finish]
    have t23 := runF_ok_add seqStep t2 t3
    have t123 := runF_ok_add seqStep t1 t23
    have tall := runF_ok_add seqStep hA t123
    have h1 : nA + (m + 1) + 1 = nA + (1 + (m + 1)) := by omega
    simp only [seqRun, h1]
    rw [tall]
    simp only [seqResults, seqFullTrace]
    simp [List.replicate_succ, List.replicate_add, List.append_assoc]

theorem recLog_replicate_polled (n : Nat) (t : String) :
    recLog (List.replicate n (.polled t)) = [] := by
  induction n with
  | zero => rfl
  | succ k ih =>
    simp only [List.replicate_succ, recLog, List.filterMap_cons] at ih ⊢
    exact ih

theorem takeWhile_replicate_append (p : Ev → Bool) (x : Ev)
    (hx : p x = true) (n : Nat) (l : List Ev) :
    (List.replicate n x ++ l).takeWhile p =
      List.replicate n x ++ l.takeWhile p := by
  induction n with
  | zero => simp
  | succ k ih =>
    simp only [List.replicate_succ, List.cons_append, List.takeWhile_cons,
      hx, ih]
    simp

theorem runF_add_ok_split (step : St → Except String (St × Poll Unit × List E))
    {n m : Nat} {s s2 : St} {rs : List (Poll Unit)} {evs : List E}
    (h : runF step (n + m) s = .ok (s2, rs, evs)) :
    ∃ s1 rs1 evs1 rs2 evs2, runF step n s = .ok (s1, rs1, evs1) ∧
      runF step m s1 = .ok (s2, rs2, evs2) ∧
      rs = rs1 ++ rs2 ∧ evs = evs1 ++ evs2 := by
  rw [runF_add step n m s] at h
  cases h1 : runF step n s with
  | error e => rw [h1] at h; simp at h
  | ok t =>
    obtain ⟨s1, rs1, evs1⟩ := t
    rw [h1] at h
    cases h2 : runF step m s1 with
    | error e => simp [h2] at h
    | ok t2 =>
      obtain ⟨s3, rs2, evs2⟩ := t2
      simp only [h2, Except.ok.injEq, Prod.mk.injEq] at h
      obtain ⟨he1, he2, he3⟩ := h
      subst he1
      exact ⟨s1, rs1, evs1, rs2, evs2, rfl, h2, he2.symm, he3.symm⟩

/-- C8: the loop-based `manual` sequencer and the tail-delegating
`manual_opt` sequencer are externally equivalent: started from `new` on the
same pair of operands, any number of polls yields the same `Except` outcome
— the same sequence of Pending/Ready results and the identical event trace
(operand polls at the same points, including the second operand being
polled within the same call when the first completes), with states related
by `toOpt`. -/
theorem c8_manual_and_opt_equivalent (pollA : A → A × Poll Unit × List E)
    (pollB : B → B × Poll Unit × List E) (relA relB : E) (n : Nat)
    (a : A) (b : B) :
    runF (AThenB.optPoll pollA pollB relA relB) n
        (AThenB.DoAThenBOpt.new a b) =
      Except.map (fun t => (AThenB.toOpt t.1, t.2.1, t.2.2))
        (runF (AThenB.manualPoll pollA pollB relA relB) n
          (AThenB.DoAThenB.new a b)) :=
  AThenB.runF_optPoll_toOpt pollA pollB relA relB n (.DoingA a b)

/-- C4: driving the instrumented sequencer (operands record their tag on
completion) to completion yields a combined log of exactly `["A", "B"]`;
the second operand is never polled before the first records its
completion; and every shorter sequence of polls produces a prefix of that
same trace (so its log is a prefix of `["A", "B"]` and is never
interleaved or reordered). -/
theorem c4_sequencer_log_exactly_A_then_B (nA nB : Nat) :
    ∃ T, seqRun (nA + nB + 1) (seqInit nA nB) =
        .ok (.Done, seqResults nA nB, T) ∧
      recLog T = ["A", "B"] ∧
      Ev.polled "B" ∉ T.takeWhile notRecordedA ∧
      ∀ n, n ≤ nA + nB + 1 →
        ∃ s rs Tn, seqRun n (seqInit nA nB) = .ok (s, rs, Tn) ∧ Tn <+: T := by
  refine ⟨seqFullTrace nA nB, seqRun_complete nA nB, ?_, ?_, ?_⟩
  · cases nB with
    | zero =>
      simp only [seqFullTrace]
      simp [recLog, List.filterMap_append,
        recLog_replicate_polled nA "A"]
    | succ m =>
      simp only [seqFullTrace]
      simp [recLog, List.filterMap_append,
        recLog_replicate_polled nA "A", recLog_replicate_polled m "B"]
  · have hA : notRecordedA (.polled "A") = true := rfl
    cases nB with
    | zero =>
      simp only [seqFullTrace, List.append_assoc, List.cons_append]
      rw [takeWhile_replicate_append _ _ hA]
      simp [List.takeWhile_cons, notRecordedA, List.mem_append,
        List.mem_replicate]
    | succ m =>
      simp only [seqFullTrace, List.append_assoc, List.cons_append]
      rw [takeWhile_replicate_append _ _ hA]
      simp [List.takeWhile_cons, notRecordedA, List.mem_append,
        List.mem_replicate]
  · intro n hn
    have hc := seqRun_complete nA nB
    simp only [seqRun] at hc
    have hsplit : nA + nB + 1 = n + (nA + nB + 1 - n) := by omega
    rw [hsplit] at hc
    obtain ⟨s1, rs1, evs1, rs2, evs2, h1, h2, hrs, hevs⟩ :=
      runF_add_ok_split seqStep hc
    exact ⟨s1, rs1, evs1, by simpa [seqRun] using h1, evs2, hevs.symm⟩

theorem seqStep_isDoingA (s s1 : AThenB.DoAThenB Nat Nat) (r : Poll Unit)
    (ev : List Ev) (h : seqStep s = .ok (s1, r, ev))
    (h2 : isDoingA s1 = true) : isDoingA s = true := by
  cases s with
  | DoingA a b => rfl
  | DoingB b =>
    cases b with
    | zero =>
      rw [seqStep_finish] at h
      simp only [Except.ok.injEq, Prod.mk.injEq] at h
      rw [← h.1] at h2
      simp [isDoingA] at h2
    | succ m =>
      have hstep : seqStep (.DoingB (m + 1)) =
          .ok (.DoingB m, .Pending, [.polled "B"]) := rfl
      rw [hstep] at h
      simp only [Except.ok.injEq, Prod.mk.injEq] at h
      rw [← h.1] at h2
      simp [isDoingA] at h2
  | Done => simp [seqStep, AThenB.manualPoll] at h

theorem seqRun_isDoingA (n : Nat) :
    ∀ (s s1 : AThenB.DoAThenB Nat Nat) (rs : List (Poll Unit))
      (T : List Ev), seqRun n s = .ok (s1, rs, T) →
      isDoingA s1 = true → isDoingA s = true := by
  induction n with
  | zero =>
    intro s s1 rs T h hA
    simp only [seqRun, runF, Except.ok.injEq, Prod.mk.injEq] at h
    rw [h.1]
    exact hA
  | succ k ih =>
    intro s s1 rs T h hA
    simp only [seqRun, runF] at h
    cases h1 : seqStep s with
    | error e => rw [h1] at h; simp at h
    | ok t =>
      obtain ⟨sm, r, ev⟩ := t
      rw [h1] at h
      cases h2 : runF seqStep k sm with
      | error e => simp [h2] at h
      | ok t2 =>
        obtain ⟨s3, rs3, T3⟩ := t2
        simp only [h2, Except.ok.injEq, Prod.mk.injEq] at h
        have hmid : isDoingA sm = true := by
          refine ih sm s1 rs3 T3 ?_ hA
          simp only [seqRun, h2, h.1]
        exact seqStep_isDoingA s sm r ev h1 hmid

theorem seqRun_after_transition (nA nB : Nat) :
    ∃ s1 rs T, runF seqStep (nA + 1) (seqInit nA nB) = .ok (s1, rs, T) ∧
      isDoingA s1 = false := by
  have hA : runF seqStep nA (seqInit nA nB) =
      .ok (.DoingA 0 nB, List.replicate nA .Pending,
        List.replicate nA (.polled "A")) := by
    have := seqRun_pendA nA 0 nB
    simpa [seqRun, seqInit, AThenB.DoAThenB.new] using this
  cases nB with
  | zero =>
    have hstep : runF seqStep 1 (AThenB.DoAThenB.DoingA 0 0) =
        .ok (.Done, [.Ready ()],
          [.polled "A", .recorded "A", .released "B", .released "A",
           .polled "B", .recorded "B", .released "B"]) := by
      simp [runF, seqStep_transition_zero]
    exact ⟨_, _, _, runF_ok_add seqStep hA hstep, rfl⟩
  | succ m =>
    have hstep : runF seqStep 1 (AThenB.DoAThenB.DoingA 0 (m + 1)) =
        .ok (.DoingB m, [.Pending],
          [.polled "A", .recorded "A", .released "B", .released "A",
           .polled "B"]) := by
      simp [runF, seqStep_transition m]
    exact ⟨_, _, _, runF_ok_add seqStep hA hstep, rfl⟩

theorem seqRun_DoingA_trace (nA nB n : Nat) (s : AThenB.DoAThenB Nat Nat)
    (rs : List (Poll Unit)) (T : List Ev)
    (h : seqRun n (seqInit nA nB) = .ok (s, rs, T))
    (hA : isDoingA s = true) : T = List.replicate n (.polled "A") := by
  by_cases hn : n ≤ nA
  · have hk := seqRun_pendA n (nA - n) nB
    have heq : n + (nA - n) = nA := by omega
    rw [heq] at hk
    have hinit : seqInit nA nB = AThenB.DoAThenB.DoingA nA nB := rfl
    rw [hinit] at h
    rw [hk] at h
    simp only [Except.ok.injEq, Prod.mk.injEq] at h
    exact h.2.2.symm
  · exfalso
    obtain ⟨s1, rs1, T1, h1, hnot⟩ := seqRun_after_transition nA nB
    have hsplit : n = (nA + 1) + (n - (nA + 1)) := by omega
    simp only [seqRun] at h
    rw [hsplit] at h
    obtain ⟨s2, rs2, evs2, rs3, evs3, hfirst, hrest, _, _⟩ :=
      runF_add_ok_split seqStep h
    rw [h1] at hfirst
    simp only [Except.ok.injEq, Prod.mk.injEq] at hfirst
    have hs2 : s1 = s2 := hfirst.1
    rw [← hs2] at hrest
    have : isDoingA s1 = true :=
      seqRun_isDoingA (n - (nA + 1)) s1 s rs3 evs3 (by simpa [seqRun] using hrest) hA
    rw [hnot] at this
    exact Bool.false_ne_true this

/-- C1 (failing evaluation): the sequencer's poll does NOT leave the
second-operand slot untouched after the transition.  With both operands
completing on their first poll, the single completing poll call's trace
shows the second operand being released at the transition — before it is
even polled — because `self.set(DoingB { b })` drops the old `DoingA`
state, whose `pinned_drop` body calls `ManuallyDrop::drop` on the slot
whose contents were just moved out; over the full run the second operand
is released twice (a double drop). -/
theorem c1_transition_touches_slot_again :
    seqRun 1 (seqInit 0 0) =
      .ok (.Done, [.Ready ()],
        [.polled "A", .recorded "A", .released "B", .released "A",
         .polled "B", .recorded "B", .released "B"]) ∧
    List.count (Ev.released "B")
      [Ev.polled "A", Ev.recorded "A", Ev.released "B", Ev.released "A",
       Ev.polled "B", Ev.recorded "B", Ev.released "B"] = 2 := by
  exact ⟨rfl, rfl⟩

/-- C3: teardown of the sequencer.  Discarding in the first state releases
the first operand and the not-yet-started second operand exactly once each
(`[released B, released A]`, one release per operand, in both the `manual`
and `manual_opt` realizations); discarding in the second state releases
only the second operand; and in any run that is still in the first state,
the second operand has never been polled and no release has happened yet
(so combined with the teardown releases, each operand is released exactly
once overall). -/
theorem c3_teardown_releases_each_operand_once :
    (∀ a b : Nat, seqDropEvs (.DoingA a b) = [.released "B", .released "A"]) ∧
    (∀ b : Nat, seqDropEvs (.DoingB b) = [.released "B"]) ∧
    (seqDropEvs .Done = []) ∧
    (∀ (a : Nat) (bSlot : Option Nat),
      seqOptDropEvs (.DoingA a bSlot) = [.released "B", .released "A"]) ∧
    (∀ (aSlot : Option Nat) (b : Nat),
      seqOptDropEvs (.DoingB aSlot b) = [.released "B"]) ∧
    (∀ nA nB n (s : AThenB.DoAThenB Nat Nat) rs T,
      seqRun n (seqInit nA nB) = .ok (s, rs, T) → isDoingA s = true →
        Ev.polled "B" ∉ T ∧ Ev.released "A" ∉ T ∧ Ev.released "B" ∉ T) := by
  refine ⟨fun a b => rfl, fun b => rfl, rfl, fun a bSlot => rfl,
    fun aSlot b => rfl, ?_⟩
  intro nA nB n s rs T h hA
  rw [seqRun_DoingA_trace nA nB n s rs T h hA]
  refine ⟨?_, ?_, ?_⟩ <;>
    · intro hmem
      exact absurd (List.eq_of_mem_replicate hmem) (by decide)

theorem c3_witness :
    Ev.polled "B" ∉ ([.polled "A"] : List Ev) ∧
    Ev.released "A" ∉ ([.polled "A"] : List Ev) ∧
    Ev.released "B" ∉ ([.polled "A"] : List Ev) := by
  have h1 : seqRun 1 (seqInit 1 0) =
      .ok (.DoingA 0 0, [.Pending], [.polled "A"]) := rfl
  exact c3_teardown_releases_each_operand_once.2.2.2.2.2
    1 0 1 (.DoingA 0 0) [.Pending] [.polled "A"] h1 rfl

/-- C10: in the Repeater's poll, after an empty slot is filled with the
factory's product, reading the slot back always yields a value: the
`unwrap_unchecked` error branch is unreachable, so poll always returns a
result (never the embedded undefined-behaviour error). -/
theorem c10_slot_refill_never_none (nextFn : Φ → Φ × NumFut)
    (pollNum : NumFut → NumFut × Poll Nat × List E) (factEv : E)
    (s : UntilEquals NumFut Φ) :
    ∃ out, UntilEquals.poll nextFn pollNum factEv s = .ok out := by
  unfold UntilEquals.poll
  rcases hslot : s.num_fut with _ | fut
  · rcases hn : nextFn s.next with ⟨p1, nf⟩
    rcases hp : pollNum nf with ⟨f1, r, ev⟩
    cases r with
    | Pending => simp [hslot, hn, hp]
    | Ready v =>
      simp only [hslot, hn, hp]
      split <;> simp
  · rcases hp : pollNum fut with ⟨f1, r, ev⟩
    cases r with
    | Pending => simp [hslot, hp]
    | Ready v =>
      simp only [hslot, hp]
      split <;> simp

/-- C5: each poll of the Repeater behaves as specified, by cases.  Empty
slot: the factory is invoked exactly once (one `factEv`, closure state
advanced once) and its product stored, then polled.  Pending propagates
with the slot retained.  Ready with value `v` clears the slot; the result
is Ready (no output) exactly when `v` equals the target, and otherwise
Pending with the slot left empty so that a later poll re-creates a fresh
sub-operation via the factory (the re-creation itself is the empty-slot
case again). -/
theorem c5_repeater_poll_cases (nextFn : Φ → Φ × NumFut)
    (pollNum : NumFut → NumFut × Poll Nat × List E) (factEv : E) :
    (∀ (s : UntilEquals NumFut Φ) p1 nf f1 ev, s.num_fut = none →
      nextFn s.next = (p1, nf) → pollNum nf = (f1, .Pending, ev) →
      UntilEquals.poll nextFn pollNum factEv s =
        .ok (⟨s.check, p1, some f1⟩, .Pending, factEv :: ev)) ∧
    (∀ (s : UntilEquals NumFut Φ) p1 nf f1 v ev, s.num_fut = none →
      nextFn s.next = (p1, nf) → pollNum nf = (f1, .Ready v, ev) →
      v = s.check →
      UntilEquals.poll nextFn pollNum factEv s =
        .ok (⟨s.check, p1, none⟩, .Ready (), factEv :: ev)) ∧
    (∀ (s : UntilEquals NumFut Φ) p1 nf f1 v ev, s.num_fut = none →
      nextFn s.next = (p1, nf) → pollNum nf = (f1, .Ready v, ev) →
      v ≠ s.check →
      UntilEquals.poll nextFn pollNum factEv s =
        .ok (⟨s.check, p1, none⟩, .Pending, factEv :: ev)) ∧
    (∀ (s : UntilEquals NumFut Φ) fut f1 ev, s.num_fut = some fut →
      pollNum fut = (f1, .Pending, ev) →
      UntilEquals.poll nextFn pollNum factEv s =
        .ok (⟨s.check, s.next, some f1⟩, .Pending, ev)) ∧
    (∀ (s : UntilEquals NumFut Φ) fut f1 v ev, s.num_fut = some fut →
      pollNum fut = (f1, .Ready v, ev) → v = s.check →
      UntilEquals.poll nextFn pollNum factEv s =
        .ok (⟨s.check, s.next, none⟩, .Ready (), ev)) ∧
    (∀ (s : UntilEquals NumFut Φ) fut f1 v ev, s.num_fut = some fut →
      pollNum fut = (f1, .Ready v, ev) → v ≠ s.check →
      UntilEquals.poll nextFn pollNum factEv s =
        .ok (⟨s.check, s.next, none⟩, .Pending, ev)) := by
  refine ⟨?_, ?_, ?_, ?_, ?_, ?_⟩
  · intro s p1 nf f1 ev hslot hn hp
    simp [UntilEquals.poll, hslot, hn, hp]
  · intro s p1 nf f1 v ev hslot hn hp hv
    simp [UntilEquals.poll, hslot, hn, hp, hv]
  · intro s p1 nf f1 v ev hslot hn hp hv
    simp [UntilEquals.poll, hslot, hn, hp, hv]
  · intro s fut f1 ev hslot hp
    simp [UntilEquals.poll, hslot, hp]
  · intro s fut f1 v ev hslot hp hv
    simp [UntilEquals.poll, hslot, hp, hv]
  · intro s fut f1 v ev hslot hp hv
    simp [UntilEquals.poll, hslot, hp, hv]

theorem c5_witness :
    UntilEquals.poll (fun n : Nat => (n, 0))
        (fun v : Nat => (v, .Pending, ([] : List UEv))) UEv.factory
        ⟨3, 0, some 5⟩ =
      .ok (⟨3, 0, some 5⟩, .Pending, []) :=
  (c5_repeater_poll_cases (fun n : Nat => (n, 0))
      (fun v : Nat => (v, .Pending, ([] : List UEv))) UEv.factory).2.2.2.1
    ⟨3, 0, some 5⟩ 5 5 [] rfl rfl

/-- C9: when the manual Repeater's stored sub-operation completes with a
value different from the target, that same poll call returns Pending with
the slot cleared, the factory state untouched (no factory invocation), and
the event trace exactly the sub-operation's own events — no new
sub-operation is polled and nothing else (in particular no wake-up) is
done in that call.  The `auto` variant instead, in the same situation,
invokes the factory and polls the fresh sub-operation within the same
call. -/
theorem c9_manual_defers_auto_continues :
    (∀ (nextFn : Φ → Φ × NumFut)
      (pollNum : NumFut → NumFut × Poll Nat × List E) (factEv : E)
      (s : UntilEquals NumFut Φ) fut f1 v ev, s.num_fut = some fut →
      pollNum fut = (f1, .Ready v, ev) → v ≠ s.check →
      UntilEquals.poll nextFn pollNum factEv s =
        .ok (⟨s.check, s.next, none⟩, .Pending, ev)) ∧
    (∀ (nextFn : Φ → Φ × NumFut)
      (pollNum : NumFut → NumFut × Poll Nat × List E) (factEv : E)
      (check fuel : Nat) (p : Φ) (fut f1 : NumFut) (v : Nat) (ev : List E)
      (p1 : Φ) (nf nf1 : NumFut) (ev2 : List E),
      pollNum fut = (f1, .Ready v, ev) → v ≠ check →
      nextFn p = (p1, nf) → pollNum nf = (nf1, .Pending, ev2) →
      autoLoop nextFn pollNum factEv check (fuel + 2) p fut =
        some (.running p1 nf1, .Pending, ev ++ factEv :: ev2)) := by
  constructor
  · intro nextFn pollNum factEv s fut f1 v ev hslot hp hv
    simp [UntilEquals.poll, hslot, hp, hv]
  · intro nextFn pollNum factEv check fuel p fut f1 v ev p1 nf nf1 ev2
      hp hv hn hp2
    simp [autoLoop, hp, hv, hn, hp2]

theorem c9_witness :
    UntilEquals.poll (fun n : Nat => (n + 1, n + 1)) uePollNum UEv.factory
        ⟨7, 0, some 3⟩ =
      .ok (⟨7, 0, none⟩, .Pending, [.polled 3, .readied 3]) ∧
    autoLoop (fun n : Nat => (n + 1, n + 1))
        (fun v : Nat => (v, if v = 3 then Poll.Ready v else .Pending,
          ([] : List UEv))) UEv.factory 7 2 0 3 =
      some (.running 1 1, .Pending, [] ++ UEv.factory :: []) := by
  constructor
  · exact c9_manual_defers_auto_continues.1
      (fun n : Nat => (n + 1, n + 1)) uePollNum UEv.factory
      ⟨7, 0, some 3⟩ 3 3 3 [.polled 3, .readied 3] rfl rfl (by decide)
  · exact c9_manual_defers_auto_continues.2
      (fun n : Nat => (n + 1, n + 1))
      (fun v : Nat => (v, if v = 3 then Poll.Ready v else .Pending,
        ([] : List UEv))) UEv.factory 7 0 0 3 3 3 [] 1 1 1 []
      rfl (by decide) rfl rfl

/-- C6: the Repeater over the factory yielding 1, 2, 3, 4, 5, … with target
4, driven to completion (4 polls, the last returning Ready): the factory is
invoked exactly 4 times, and no produced sub-operation is ever polled after
it has completed. -/
theorem c6_factory_four_times_no_repoll :
    ueRun 4 = .ok (⟨4, 4, none⟩,
      [.Pending, .Pending, .Pending, .Ready ()],
      [.factory, .polled 1, .readied 1, .factory, .polled 2, .readied 2,
       .factory, .polled 3, .readied 3, .factory, .polled 4, .readied 4]) ∧
    List.count UEv.factory
      [UEv.factory, UEv.polled 1, UEv.readied 1, UEv.factory, UEv.polled 2,
       UEv.readied 2, UEv.factory, UEv.polled 3, UEv.readied 3, UEv.factory,
       UEv.polled 4, UEv.readied 4] = 4 ∧
    hasPolledAfterReady
      [UEv.factory, UEv.polled 1, UEv.readied 1, UEv.factory, UEv.polled 2,
       UEv.readied 2, UEv.factory, UEv.polled 3, UEv.readied 3, UEv.factory,
       UEv.polled 4, UEv.readied 4] = false := by
  refine ⟨rfl, by decide, by decide⟩

/-- C7: the Timer's poll state machine.  Construction starts no background
work (no handle, hence no worker).  The first poll captures the caller's
waker, allocates the shared cell (exactly once: later polls only replace
the stored waker, never the cell) and spawns the worker.  Every subsequent
poll while pending replaces the stored waker with the caller's current
one.  Poll returns Ready exactly when the done flag is observed true.  The
worker's completion step, under the cell's lock, sets done and invokes the
stored waker. -/
theorem c7_timer_poll_machine :
    (∀ (W : Type) (d : Nat), (sleepFut W d).handle = none) ∧
    (∀ (W : Type) (w : W) (d : Nat),
      Sleep.poll w (sleepFut W d) =
        (⟨d, some ⟨w, false⟩⟩, .Pending, [.spawned d])) ∧
    (∀ (W : Type) (w : W) (s : Sleep W) (sh : Shared W),
      s.handle = some sh → sh.done = false →
      Sleep.poll w s = ({ s with handle := some ⟨w, false⟩ }, .Pending, [])) ∧
    (∀ (W : Type) (w : W) (s : Sleep W) (sh : Shared W),
      s.handle = some sh →
      ((Sleep.poll w s).2.1 = Poll.Ready () ↔ sh.done = true)) ∧
    (∀ (W : Type) (sh : Shared W),
      workerBody sh = (⟨sh.waker, true⟩, [.woke sh.waker])) ∧
    (∀ (W : Type) (s : Sleep W) (sh : Shared W), s.handle = some sh →
      workerFire s = ({ s with handle := some ⟨sh.waker, true⟩ },
        [.woke sh.waker])) := by
  refine ⟨fun W d => rfl, fun W w d => rfl, ?_, ?_, fun W sh => rfl, ?_⟩
  · intro W w s sh hh hdone
    simp [Sleep.poll, hh, hdone]
  · intro W w s sh hh
    cases hd : sh.done with
    | true => simp [Sleep.poll, hh, hd]
    | false =>
      simp [Sleep.poll, hh, hd]
  · intro W s sh hh
    simp [workerFire, workerBody, hh]

theorem c7_witness :
    Sleep.poll 9 (⟨5, some ⟨0, false⟩⟩ : Sleep Nat) =
      (⟨5, some ⟨9, false⟩⟩, .Pending, []) ∧
    ((Sleep.poll 9 (⟨5, some ⟨0, true⟩⟩ : Sleep Nat)).2.1 = Poll.Ready () ↔
      true = true) ∧
    workerFire (⟨5, some ⟨0, false⟩⟩ : Sleep Nat) =
      (⟨5, some ⟨0, true⟩⟩, [.woke 0]) := by
  refine ⟨?_, ?_, ?_⟩
  · exact c7_timer_poll_machine.2.2.1 Nat 9 ⟨5, some ⟨0, false⟩⟩
      ⟨0, false⟩ rfl rfl
  · exact c7_timer_poll_machine.2.2.2.1 Nat 9 ⟨5, some ⟨0, true⟩⟩
      ⟨0, true⟩ rfl
  · exact c7_timer_poll_machine.2.2.2.2.2 Nat ⟨5, some ⟨0, false⟩⟩
      ⟨0, false⟩ rfl

/-- C2 (counterexample): polling after Ready does NOT abort for every
operation.  A concrete Timer is driven to completion (first poll spawns the
worker, the worker fires, the next poll reports Ready); polling it again
after it has reported Ready returns Ready once more — a result, not an
abort.  Likewise a concrete manual Repeater (target 1, factory constantly
yielding an immediately-ready 1) reports Ready, and polling it again
returns Ready again via a fresh factory invocation instead of aborting. -/
theorem c2_counterexample_poll_after_ready_no_abort :
    Sleep.poll 0 (sleepFut Nat 5) =
      (⟨5, some ⟨0, false⟩⟩, .Pending, [.spawned 5]) ∧
    workerFire (⟨5, some ⟨0, false⟩⟩ : Sleep Nat) =
      (⟨5, some ⟨0, true⟩⟩, [.woke 0]) ∧
    Sleep.poll 1 (⟨5, some ⟨0, true⟩⟩ : Sleep Nat) =
      (⟨5, some ⟨0, true⟩⟩, .Ready (), []) ∧
    Sleep.poll 2 (⟨5, some ⟨0, true⟩⟩ : Sleep Nat) =
      (⟨5, some ⟨0, true⟩⟩, .Ready (), []) ∧
    UntilEquals.poll (fun u : Unit => (u, 1))
        (fun v : Nat => (v, .Ready v, ([] : List UEv))) UEv.factory
        ⟨1, (), none⟩ =
      .ok (⟨1, (), none⟩, .Ready (), [.factory]) := by
  exact ⟨rfl, rfl, rfl, rfl, rfl⟩

/-- C2 (amended): only the Sequencer aborts loudly when polled after it
has reported Ready (both manual realizations).  The Timer's poll simply
observes the done flag again and returns Ready once more, and the manual
Repeater's poll restarts with a fresh sub-operation from the factory —
neither aborts. -/
theorem c2_amended_only_sequencer_aborts :
    (∀ (A B E : Type) (pollA : A → A × Poll Unit × List E)
      (pollB : B → B × Poll Unit × List E) (relA relB : E),
      AThenB.manualPoll pollA pollB relA relB .Done =
        .error "resumed after completion") ∧
    (∀ (A B E : Type) (pollA : A → A × Poll Unit × List E)
      (pollB : B → B × Poll Unit × List E) (relA relB : E),
      AThenB.optPoll pollA pollB relA relB .Done =
        .error "resumed after completion") ∧
    (∀ (W : Type) (w : W) (s : Sleep W) (sh : Shared W),
      s.handle = some sh → sh.done = true →
      Sleep.poll w s = (s, .Ready (), [])) ∧
    (∀ (NumFut Φ E : Type) (nextFn : Φ → Φ × NumFut)
      (pollNum : NumFut → NumFut × Poll Nat × List E) (factEv : E)
      (check : Nat) (p : Φ),
      ∃ out, UntilEquals.poll nextFn pollNum factEv ⟨check, p, none⟩ =
          .ok out ∧ ∃ rest, out.2.2 = factEv :: rest) := by
  refine ⟨fun A B E pollA pollB relA relB => rfl,
    fun A B E pollA pollB relA relB => rfl, ?_, ?_⟩
  · intro W w s sh hh hdone
    cases s with
    | mk d handle =>
      cases hh
      simp [Sleep.poll, hdone]
  · intro NumFut Φ E nextFn pollNum factEv check p
    rcases hn : nextFn p with ⟨p1, nf⟩
    rcases hp : pollNum nf with ⟨f1, r, ev⟩
    cases r with
    | Pending =>
      exact ⟨(⟨check, p1, some f1⟩, .Pending, factEv :: ev),
        by simp [UntilEquals.poll, hn, hp], ev, rfl⟩
    | Ready v =>
      by_cases hv : v = check
      · exact ⟨(⟨check, p1, none⟩, .Ready (), factEv :: ev),
          by simp [UntilEquals.poll, hn, hp, hv], ev, rfl⟩
      · exact ⟨(⟨check, p1, none⟩, .Pending, factEv :: ev),
          by simp [UntilEquals.poll, hn, hp, hv], ev, rfl⟩

theorem c2_amended_witness :
    AThenB.manualPoll (cPoll "A") (cPoll "B") (Ev.released "A")
        (Ev.released "B") .Done = .error "resumed after completion" ∧
    Sleep.poll 3 (⟨5, some ⟨0, true⟩⟩ : Sleep Nat) =
      (⟨5, some ⟨0, true⟩⟩, .Ready (), []) := by
  constructor
  · exact c2_amended_only_sequencer_aborts.1 Nat Nat Ev (cPoll "A")
      (cPoll "B") (Ev.released "A") (Ev.released "B")
  · exact c2_amended_only_sequencer_aborts.2.2.1 Nat 3 ⟨5, some ⟨0, true⟩⟩
      ⟨0, true⟩ rfl rfl

theorem c4_witness :
    (1 : Nat) ≤ 1 + 1 + 1 ∧
    ∃ T, seqRun (1 + 1 + 1) (seqInit 1 1) =
        .ok (.Done, seqResults 1 1, T) ∧
      recLog T = ["A", "B"] ∧
      Ev.polled "B" ∉ T.takeWhile notRecordedA ∧
      ∃ s rs Tn, seqRun 1 (seqInit 1 1) = .ok (s, rs, Tn) ∧ Tn <+: T := by
  refine ⟨by decide, ?_⟩
  obtain ⟨T, h1, h2, h3, h4⟩ := c4_sequencer_log_exactly_A_then_B 1 1
  exact ⟨T, h1, h2, h3, h4 1 (by decide)⟩
